import Mathlib

/-!
Shallow embedding of the command-execution core of a small interactive shell
(`src/main.rs`): pipeline parsing (`parse_arguments`), builtin dispatch
(`run_builtin`) and the pipeline executor (`parse_command`, modelled as a
trace of observable events), together with theorems checking the
specification's claims against these definitions.

External collaborators are modelled as inputs:
* the word splitter (the `shlex` crate) is represented by its result, an
  `Option (List String)`; `none` models a split failure such as an
  unterminated quote (the code turns it into `[]` via `unwrap_or_default`);
* the operating system is represented by `ExecEnv` (whether a spawn or a
  file open succeeds) and `ShellEnv` (current directory, home directory,
  the executables found on the search path, which directories exist).
-/

namespace Shell

/-- The fixed builtin set (`BUILTINS` in the source). -/
def BUILTINS : List String := ["echo", "exit", "type", "pwd", "cd", "history"]

/-- The recognized redirection operators (`redir_modes` in `parse_arguments`). -/
def redir_modes : List String := ["1>", "2>", ">", ">>", "1>>", "2>>"]

/-- The grouping loop of `parse_arguments`: push `current_part` (even when
empty) at each `"|"`, and push the final `current_part` only when non-empty. -/
def splitGroupsAux : List String → List String → List (List String)
  | [], current => if current.isEmpty then [] else [current]
  | w :: ws, current =>
    if w = "|" then current :: splitGroupsAux ws []
    else splitGroupsAux ws (current ++ [w])

/-- `command_parts` as built by `parse_arguments` from the split words. -/
def splitGroups (ws : List String) : List (List String) :=
  splitGroupsAux ws []

/-- The argument-collection loop of `parse_arguments` for one group (after the
command word was popped): collect words until the first redirection operator;
on an operator, consume the next word as the target (setting the redirection
only when such a word exists) and stop. Returns the collected arguments and
the redirection set by this group, if any. -/
def scanArgs : List String → List String × Option (String × String)
  | [] => ([], none)
  | a :: rest =>
    if redir_modes.contains a then
      match rest with
      | fname :: _ => ([], some (a, fname))
      | [] => ([], none)
    else
      let s := scanArgs rest
      (a :: s.1, s.2)

/-- The per-group loop of `parse_arguments`: for each group, the first word
(when present) is pushed onto `cmd`, an argument list is pushed onto `args`
for every group (also for an empty group), and the single `redirection`
variable is overwritten whenever a group sets one. -/
def processGroups : List (List String) → Option (String × String) →
    List String × List (List String) × Option (String × String)
  | [], redir => ([], [], redir)
  | [] :: gs, redir =>
    let r := processGroups gs redir
    (r.1, [] :: r.2.1, r.2.2)
  | (c :: rest) :: gs, redir =>
    let s := scanArgs rest
    let r := processGroups gs (match s.2 with | some x => some x | none => redir)
    (c :: r.1, s.1 :: r.2.1, r.2.2)

/-- `parse_arguments` from the source, over the word splitter's result
(`none` models `shlex::split` failing; `unwrap_or_default` yields `[]`).
Returns `(cmd, args, redirection, has_pipe)`. -/
def parse_arguments (split : Option (List String)) :
    List String × List (List String) × Option (String × String) × Bool :=
  let command_split := split.getD []
  let has_pipe := command_split.contains "|"
  let r := processGroups (splitGroups command_split) none
  (r.1, r.2.1, r.2.2, has_pipe)

/-- The (command, argument-list) pairs the executor `parse_command` pairs up
by index (`cmds.get(i)` with `args.get(i)`); since `args` always has at least
as many entries as `cmds`, this pairing is `zip`. -/
def stages (split : Option (List String)) : List (String × List String) :=
  (parse_arguments split).1.zip (parse_arguments split).2.1

/-- The redirection set by one group: `none` for an empty group, otherwise the
first operator-with-target found after the group's command word. -/
def groupRedir : List String → Option (String × String)
  | [] => none
  | _ :: rest => (scanArgs rest).2

/-- The last redirection set by any group, scanning groups left to right
(a later group's redirection overwrites an earlier one; groups setting none
leave the value alone). Stated from the spec's words for comparison with
`parse_arguments`. -/
def lastRetainedRedir : List (List String) → Option (String × String)
  | [] => none
  | g :: gs =>
    match lastRetainedRedir gs with
    | some x => some x
    | none => groupRedir g

/-- The `OpenOptions` flags used by `parse_command` when opening a
redirection target. -/
structure OpenSpec where
  append : Bool
  write : Bool
  create : Bool
  truncate : Bool
deriving DecidableEq

/-- The open options chosen by `parse_command` for a redirection operator:
`">>"` opens with append+create; every other operator opens with
write+create+truncate. -/
def openFor (mode : String) : OpenSpec :=
  if mode = ">>" then ⟨true, false, true, false⟩
  else ⟨false, true, true, true⟩

/-- Process-wide state and OS facts consulted by the builtins: the current
working directory, the home directory (used by `shellexpand::tilde`), the
executables discovered on the search path (`load_executables`), and which
paths `env::set_current_dir` would accept. -/
structure ShellEnv where
  cwd : String
  home : String
  executables : List (String × String)
  dirExists : String → Bool

/-- `shellexpand::tilde`: a lone `"~"` or a leading `"~/"` is replaced by the
home directory; anything else (including `~user`) is left unchanged. -/
def tildeExpand (home : String) (dir : String) : String :=
  if dir = "~" then home
  else if dir.startsWith "~/" then home ++ dir.drop 1
  else dir

/-- Result of `run_builtin`: either the process terminates (`exit`), or the
builtin returns an optional output string and the (possibly updated by `cd`)
working directory. -/
inductive BuiltinResult where
  | exit (code : Int)
  | out (output : Option String) (newCwd : String)
deriving DecidableEq

/-- `run_builtin` from the source. `echo` joins the arguments with spaces and
appends a newline; `pwd` prints the working directory; `exit` terminates with
the parsed first argument (default 0); `type` consults the builtin list then
the resolved executables; `cd` tilde-expands its first argument and changes
directory, reporting nonexistent paths, and does nothing without arguments;
every other name (including `history`, whose implementation is commented out
in the source) falls through to the catch-all returning no output. -/
def run_builtin (env : ShellEnv) (cmd : String) (args : List String) : BuiltinResult :=
  match cmd with
  | "echo" => .out (some (String.intercalate " " args ++ "\n")) env.cwd
  | "pwd" => .out (some (env.cwd ++ "\n")) env.cwd
  | "exit" => .exit (((args.head?.bind String.toInt?).getD 0))
  | "type" =>
    .out (some (match args.head? with
      | some arg =>
        if BUILTINS.contains arg then arg ++ " is a shell builtin\n"
        else match env.executables.lookup arg with
          | some path => arg ++ " is " ++ path ++ "\n"
          | none => arg ++ ": not found\n"
      | none => "type: missing operand\n")) env.cwd
  | "cd" =>
    match args.head? with
    | some dir =>
      let path := tildeExpand env.home dir
      if env.dirExists path then .out none path
      else .out (some ("cd: " ++ dir ++ ": No such file or directory\n")) env.cwd
    | none => .out none env.cwd
  | _ => .out none env.cwd

/-- Where a spawned stage's stdin comes from: the previous stage's stdout
pipe (`prev_stdout`) or the shell's stdin (`Stdio::inherit`). -/
inductive StdinSrc where
  | pipeFromPrev
  | inherit
deriving DecidableEq

/-- Where a spawned stage's stdout (or stderr) goes: a fresh pipe, an opened
redirection target, or the shell's own stream (`Stdio::inherit`). -/
inductive StdoutSink where
  | piped
  | file (name : String) (spec : OpenSpec)
  | inherit
deriving DecidableEq

/-- Observable actions of `parse_command`, in order:
* `openFile f spec` — the redirection target `f` was opened with flags `spec`
  (creating/truncating per `spec`);
* `openDiag f` — the `"Failed to open file f: e"` diagnostic, followed by an
  early return;
* `print s` — builtin output written to the shell's own stdout via `print!`;
* `spawn c a si so se` — a child was spawned for command `c` with arguments
  `a` and the three stream bindings;
* `notFound c` — the `"c: command not found"` diagnostic printed when the
  spawn fails, followed by an early return;
* `waited c` — the wait loop waited on the child spawned for `c`;
* `exited code` — the `exit` builtin terminated the process. -/
inductive Event where
  | openFile (name : String) (spec : OpenSpec)
  | openDiag (name : String)
  | print (s : String)
  | spawn (cmd : String) (args : List String) (stdin : StdinSrc)
      (stdout : StdoutSink) (stderr : StdoutSink)
  | notFound (cmd : String)
  | waited (cmd : String)
  | exited (code : Int)
deriving DecidableEq

/-- OS behaviour the executor depends on: whether `Command::spawn` succeeds
for a command name, and whether opening a redirection target succeeds. -/
structure ExecEnv where
  spawnOk : String → Bool
  openOk : String → Bool

/-- Result of the executor's stage loop: the events so far, the commands
spawned (in spawn order, for the wait loop), whether the loop ran to
completion (an early `return` skips the wait loop), and the shell state. -/
structure RunResult where
  events : List Event
  spawned : List String
  completed : Bool
  env : ShellEnv

/-- The stdout binding computed at the top of the loop body of
`parse_command`: a pipe for a non-last stage; for the last stage, the opened
redirection target when a redirection exists (an open failure produces the
diagnostic and an early return), otherwise the shell's stdout. -/
def stdoutFor (openOk : String → Bool) (notLast : Bool)
    (redir : Option (String × String)) :
    Except Event (List Event × StdoutSink) :=
  if notLast then .ok ([], .piped)
  else
    match redir with
    | some (mode, filename) =>
      if openOk filename then
        .ok ([.openFile filename (openFor mode)], .file filename (openFor mode))
      else .error (.openDiag filename)
    | none => .ok ([], .inherit)

/-- The stage loop of `parse_command` (`for i in 0..cmds.len()`), with `n`
the number of stages, `i` the current index, `prev` whether `prev_stdout`
holds the previous stage's pipe, and `senv` the shell state. A builtin runs
in-process (its output printed, the taken `prev_stdout` dropped); an external
stage is spawned with the three stream bindings, its stdout handle becoming
`prev_stdout` exactly when it was piped; a failed spawn or file open returns
early with `completed = false`. -/
def runStages (ee : ExecEnv) (n : Nat) (redir : Option (String × String))
    (args : List (List String)) :
    Nat → List String → Bool → ShellEnv → RunResult
  | _, [], _, senv => ⟨[], [], true, senv⟩
  | i, cmd :: rest, prev, senv =>
    match stdoutFor ee.openOk (decide (i < n - 1)) redir with
    | .error ev => ⟨[ev], [], false, senv⟩
    | .ok (openEvs, sink) =>
      if BUILTINS.contains cmd then
        match run_builtin senv cmd ((args.get? i).getD []) with
        | .exit code => ⟨openEvs ++ [Event.exited code], [], false, senv⟩
        | .out out newCwd =>
          let r := runStages ee n redir args (i + 1) rest false
            { senv with cwd := newCwd }
          ⟨openEvs ++ (match out with | some s => [Event.print s] | none => [])
             ++ r.events, r.spawned, r.completed, r.env⟩
      else if ee.spawnOk cmd then
        let r := runStages ee n redir args (i + 1) rest (decide (i < n - 1)) senv
        ⟨openEvs ++
           [Event.spawn cmd ((args.get? i).getD [])
             (if prev then StdinSrc.pipeFromPrev else StdinSrc.inherit)
             sink StdoutSink.inherit] ++ r.events,
         cmd :: r.spawned, r.completed, r.env⟩
      else ⟨openEvs ++ [Event.notFound cmd], [], false, senv⟩

/-- `parse_command` from the source: parse the line, run the stage loop, and
(only when the loop ran to completion) wait on every spawned child in spawn
order. Returns the event trace and the final shell state. -/
def parse_command (ee : ExecEnv) (senv : ShellEnv)
    (split : Option (List String)) : List Event × ShellEnv :=
  let parsed := parse_arguments split
  let cmds := parsed.1
  let args := parsed.2.1
  let redirection := parsed.2.2.1
  let r := runStages ee cmds.length redirection args 0 cmds false senv
  (if r.completed then r.events ++ r.spawned.map Event.waited else r.events,
   r.env)

/-! Concrete environments used by counterexamples and witnesses. -/

/-- A concrete shell state for counterexamples and witnesses. -/
def senv0 : ShellEnv := ⟨"/a", "/home/u", [], fun _ => true⟩

/-- A concrete shell state in which no directory exists. -/
def senvF : ShellEnv := ⟨"/a", "/home/u", [], fun _ => false⟩

/-- A concrete OS in which only `cat` can be spawned and every file opens. -/
def ee2 : ExecEnv := ⟨fun c => c == "cat", fun _ => true⟩

/-- A concrete OS in which only `cat` can be spawned and no file opens. -/
def ee6 : ExecEnv := ⟨fun c => c == "cat", fun _ => false⟩

/-! ## Parser lemmas -/

/-- The redirection threaded through the per-group loop is the last one set
by any group, the initial value when no group sets one. -/
theorem processGroups_redir (gs : List (List String)) :
    ∀ r, (processGroups gs r).2.2 =
      match lastRetainedRedir gs with
      | some x => some x
      | none => r := by
  induction gs with
  | nil => intro r; rfl
  | cons g gs ih =>
    intro r
    cases g with
    | nil =>
      simp only [processGroups, ih, lastRetainedRedir, groupRedir]
      cases lastRetainedRedir gs <;> rfl
    | cons c rest =>
      simp only [processGroups, ih, lastRetainedRedir, groupRedir]
      cases lastRetainedRedir gs <;> cases hs : (scanArgs rest).2 <;> simp [hs]

/-- The command list collects the head of every non-empty group, in order. -/
theorem processGroups_cmds (gs : List (List String)) :
    ∀ r, (processGroups gs r).1 = gs.filterMap List.head? := by
  induction gs with
  | nil => intro r; rfl
  | cons g gs ih =>
    intro r
    cases g with
    | nil => simp [processGroups, ih]
    | cons c rest => simp [processGroups, ih]

/-- One argument list is pushed per group, so `args` is as long as the group
list (while `cmd` only counts non-empty groups). -/
theorem processGroups_args_length (gs : List (List String)) :
    ∀ r, (processGroups gs r).2.1.length = gs.length := by
  induction gs with
  | nil => intro r; rfl
  | cons g gs ih =>
    intro r
    cases g with
    | nil => simp [processGroups, ih]
    | cons c rest => simp [processGroups, ih]

/-- When no group is empty, zipping commands with argument lists pairs each
group's head with the arguments scanned from that same group. -/
theorem processGroups_zip (gs : List (List String)) :
    ∀ r, (∀ g ∈ gs, g ≠ []) →
      (processGroups gs r).1.zip (processGroups gs r).2.1 =
        gs.map (fun g => (g.headD "", (scanArgs g.tail).1)) := by
  induction gs with
  | nil => intro r _; rfl
  | cons g gs ih =>
    intro r hne
    cases g with
    | nil => exact absurd rfl (hne [] (List.mem_cons_self _ _))
    | cons c rest =>
      have hgs : ∀ g ∈ gs, g ≠ [] := fun g hg => hne g (List.mem_cons_of_mem _ hg)
      simp only [processGroups, List.map_cons, List.headD_cons, List.tail_cons,
        List.zip_cons_cons, ih _ hgs]

/-! ## Executor trace lemmas -/

/-- A failed open produces an open diagnostic event. -/
theorem stdoutFor_error_shape {ok : String → Bool} {nl : Bool}
    {rd : Option (String × String)} {ev : Event}
    (h : stdoutFor ok nl rd = .error ev) : ∃ f, ev = Event.openDiag f := by
  unfold stdoutFor at h
  split at h
  · simp at h
  · split at h
    next mode filename =>
      split at h
      · simp at h
      · exact ⟨filename, by injection h with h; exact h.symm⟩
    next => simp at h

/-- A successful stdout binding contributes no event or one open event. -/
theorem stdoutFor_ok_shape {ok : String → Bool} {nl : Bool}
    {rd : Option (String × String)} {evs : List Event} {sink : StdoutSink}
    (h : stdoutFor ok nl rd = .ok (evs, sink)) :
    evs = [] ∨ ∃ f m, evs = [Event.openFile f m] := by
  unfold stdoutFor at h
  split at h
  · simp only [Except.ok.injEq, Prod.mk.injEq] at h
    exact Or.inl h.1.symm
  · split at h
    next mode filename =>
      split at h
      · simp only [Except.ok.injEq, Prod.mk.injEq] at h
        exact Or.inr ⟨filename, openFor mode, h.1.symm⟩
      · simp at h
    next =>
      simp only [Except.ok.injEq, Prod.mk.injEq] at h
      exact Or.inl h.1.symm

/-- Prepending an element does not change a known non-`none` last element. -/
theorem getLast_cons_of_getLast {α : Type _} {l : List α} {x : α}
    (h : l.getLast? = some x) (a : α) : (a :: l).getLast? = some x := by
  cases l with
  | nil => simp at h
  | cons b bs => rw [List.getLast?_cons_cons]; exact h

/-- The stage loop itself never emits a wait event (waiting happens in a
separate loop after the stage loop, and only when it ran to completion). -/
theorem runStages_no_waited (ee : ExecEnv) (n : Nat)
    (redir : Option (String × String)) (args : List (List String)) :
    ∀ (cs : List String) (i : Nat) (prev : Bool) (senv : ShellEnv) (d : String),
      Event.waited d ∉ (runStages ee n redir args i cs prev senv).events := by
  intro cs
  induction cs with
  | nil => intro i prev senv d; simp [runStages]
  | cons cmd rest ih =>
    intro i prev senv d
    simp only [runStages]
    cases hso : stdoutFor ee.openOk (decide (i < n - 1)) redir with
    | error ev =>
      obtain ⟨f, rfl⟩ := stdoutFor_error_shape hso
      simp
    | ok p =>
      obtain ⟨evs, sink⟩ := p
      have hevs := stdoutFor_ok_shape hso
      by_cases hb : cmd ∈ BUILTINS
      · cases hrb : run_builtin senv cmd ((args.get? i).getD []) with
        | exit code =>
          rcases hevs with rfl | ⟨f, m, rfl⟩ <;> simp [hb, hrb]
        | out out newCwd =>
          rcases hevs with rfl | ⟨f, m, rfl⟩ <;> cases out <;>
            simp [hb, hrb, ih]
      · by_cases hs : ee.spawnOk cmd = true
        · rcases hevs with rfl | ⟨f, m, rfl⟩ <;> simp [hb, hs, ih]
        · rcases hevs with rfl | ⟨f, m, rfl⟩ <;> simp [hb, hs]

/-- When a spawn fails, the stage loop ends immediately: the "not found"
diagnostic is the final event and the loop did not run to completion. -/
theorem runStages_notFound_last (ee : ExecEnv) (n : Nat)
    (redir : Option (String × String)) (args : List (List String)) :
    ∀ (cs : List String) (i : Nat) (prev : Bool) (senv : ShellEnv) (c : String),
      Event.notFound c ∈ (runStages ee n redir args i cs prev senv).events →
      (runStages ee n redir args i cs prev senv).events.getLast? =
          some (Event.notFound c) ∧
        (runStages ee n redir args i cs prev senv).completed = false := by
  intro cs
  induction cs with
  | nil => intro i prev senv c h; simp [runStages] at h
  | cons cmd rest ih =>
    intro i prev senv c
    simp only [runStages]
    cases hso : stdoutFor ee.openOk (decide (i < n - 1)) redir with
    | error ev =>
      obtain ⟨f, rfl⟩ := stdoutFor_error_shape hso
      intro h
      simp at h
    | ok p =>
      obtain ⟨evs, sink⟩ := p
      have hevs := stdoutFor_ok_shape hso
      by_cases hb : cmd ∈ BUILTINS
      · cases hrb : run_builtin senv cmd ((args.get? i).getD []) with
        | exit code =>
          intro h
          rcases hevs with rfl | ⟨f, m, rfl⟩ <;> simp [hb, hrb] at h
        | out out newCwd =>
          intro h
          have hmem : Event.notFound c ∈
              (runStages ee n redir args (i + 1) rest false
                { senv with cwd := newCwd }).events := by
            rcases hevs with rfl | ⟨f, m, rfl⟩ <;> cases out <;>
              simp [hb, hrb] at h <;> simpa using h
          obtain ⟨h1, h2⟩ := ih _ _ _ _ hmem
          rcases hevs with rfl | ⟨f, m, rfl⟩ <;> cases out <;>
            simp [hb, hrb, List.getLast?_append, h1, h2,
              getLast_cons_of_getLast h1]
      · by_cases hs : ee.spawnOk cmd = true
        · intro h
          have hmem : Event.notFound c ∈
              (runStages ee n redir args (i + 1) rest (decide (i < n - 1))
                senv).events := by
            rcases hevs with rfl | ⟨f, m, rfl⟩ <;> simp [hb, hs] at h <;>
              simpa using h
          obtain ⟨h1, h2⟩ := ih _ _ _ _ hmem
          rcases hevs with rfl | ⟨f, m, rfl⟩ <;>
            simp [hb, hs, List.getLast?_append, h1, h2,
              getLast_cons_of_getLast h1]
        · intro h
          have hc : c = cmd := by
            rcases hevs with rfl | ⟨f, m, rfl⟩ <;> simpa [hb, hs] using h
          subst hc
          rcases hevs with rfl | ⟨f, m, rfl⟩ <;>
            simp [hb, hs, List.getLast?_concat]

/-- When opening the redirection target fails, the stage loop ends
immediately: the open diagnostic is the final event and the loop did not run
to completion. -/
theorem runStages_openDiag_last (ee : ExecEnv) (n : Nat)
    (redir : Option (String × String)) (args : List (List String)) :
    ∀ (cs : List String) (i : Nat) (prev : Bool) (senv : ShellEnv) (f : String),
      Event.openDiag f ∈ (runStages ee n redir args i cs prev senv).events →
      (runStages ee n redir args i cs prev senv).events.getLast? =
          some (Event.openDiag f) ∧
        (runStages ee n redir args i cs prev senv).completed = false := by
  intro cs
  induction cs with
  | nil => intro i prev senv f h; simp [runStages] at h
  | cons cmd rest ih =>
    intro i prev senv f
    simp only [runStages]
    cases hso : stdoutFor ee.openOk (decide (i < n - 1)) redir with
    | error ev =>
      obtain ⟨g, rfl⟩ := stdoutFor_error_shape hso
      intro h
      have hf : f = g := by simpa using h
      subst hf
      exact ⟨rfl, rfl⟩
    | ok p =>
      obtain ⟨evs, sink⟩ := p
      have hevs := stdoutFor_ok_shape hso
      by_cases hb : cmd ∈ BUILTINS
      · cases hrb : run_builtin senv cmd ((args.get? i).getD []) with
        | exit code =>
          intro h
          rcases hevs with rfl | ⟨g, m, rfl⟩ <;> simp [hb, hrb] at h
        | out out newCwd =>
          intro h
          have hmem : Event.openDiag f ∈
              (runStages ee n redir args (i + 1) rest false
                { senv with cwd := newCwd }).events := by
            rcases hevs with rfl | ⟨g, m, rfl⟩ <;> cases out <;>
              simp [hb, hrb] at h <;> simpa using h
          obtain ⟨h1, h2⟩ := ih _ _ _ _ hmem
          rcases hevs with rfl | ⟨g, m, rfl⟩ <;> cases out <;>
            simp [hb, hrb, List.getLast?_append, h1, h2,
              getLast_cons_of_getLast h1]
      · by_cases hs : ee.spawnOk cmd = true
        · intro h
          have hmem : Event.openDiag f ∈
              (runStages ee n redir args (i + 1) rest (decide (i < n - 1))
                senv).events := by
            rcases hevs with rfl | ⟨g, m, rfl⟩ <;> simp [hb, hs] at h <;>
              simpa using h
          obtain ⟨h1, h2⟩ := ih _ _ _ _ hmem
          rcases hevs with rfl | ⟨g, m, rfl⟩ <;>
            simp [hb, hs, List.getLast?_append, h1, h2,
              getLast_cons_of_getLast h1]
        · intro h
          rcases hevs with rfl | ⟨g, m, rfl⟩ <;> simp [hb, hs] at h

/-- Running a pipeline of external spawnable stages followed by a final
builtin stage with a redirection: the loop completes, the redirection target
is opened, the builtin's output (when any) is printed, and every spawned
child is an earlier external stage whose stdout is a pipe — the opened file
is never handed to any child. -/
theorem runStages_front_builtin (ee : ExecEnv) (mode f : String)
    (args : List (List String)) (cmd : String) (out : Option String)
    (newCwd : String) :
    ∀ (front : List String) (n i : Nat) (prev : Bool) (senv : ShellEnv),
      n = i + front.length + 1 →
      (∀ c ∈ front, c ∉ BUILTINS ∧ ee.spawnOk c = true) →
      cmd ∈ BUILTINS →
      ee.openOk f = true →
      run_builtin senv cmd ((args.get? (i + front.length)).getD []) =
        .out out newCwd →
      (runStages ee n (some (mode, f)) args i (front ++ [cmd]) prev
          senv).completed = true ∧
      Event.openFile f (openFor mode) ∈
        (runStages ee n (some (mode, f)) args i (front ++ [cmd]) prev
          senv).events ∧
      (∀ s, out = some s → Event.print s ∈
        (runStages ee n (some (mode, f)) args i (front ++ [cmd]) prev
          senv).events) ∧
      (∀ c' a si so se, Event.spawn c' a si so se ∈
          (runStages ee n (some (mode, f)) args i (front ++ [cmd]) prev
            senv).events →
        c' ∈ front ∧ so = StdoutSink.piped) := by
  intro front
  induction front with
  | nil =>
    intro n i prev senv hn hfront hb hopen hrb
    subst hn
    simp only [List.length_nil, Nat.add_zero, List.get?_eq_getElem?] at hrb
    have hlt : ¬ (i < i + List.length ([] : List String) + 1 - 1) := by
      simp
    cases out with
    | none =>
      simp [runStages, stdoutFor, decide_eq_false hlt, hopen, hb, hrb]
    | some s =>
      simp [runStages, stdoutFor, decide_eq_false hlt, hopen, hb, hrb]
  | cons c' front' ih =>
    intro n i prev senv hn hfront hb hopen hrb
    obtain ⟨hc'nb, hc'sp⟩ := hfront c' (List.mem_cons_self _ _)
    have hfront' : ∀ c ∈ front', c ∉ BUILTINS ∧ ee.spawnOk c = true :=
      fun c hc => hfront c (List.mem_cons_of_mem _ hc)
    have hn' : n = (i + 1) + front'.length + 1 := by
      rw [hn, List.length_cons]; omega
    have hrb' : run_builtin senv cmd
        ((args.get? ((i + 1) + front'.length)).getD []) = .out out newCwd := by
      have harith : (i + 1) + front'.length = i + (c' :: front').length := by
        rw [List.length_cons]; omega
      rw [harith]; exact hrb
    have hlt : i < n - 1 := by rw [hn, List.length_cons]; omega
    have hdec : decide (i < n - 1) = true := decide_eq_true hlt
    obtain ⟨ihc, iho, ihp, ihs⟩ :=
      ih n (i + 1) true senv hn' hfront' hb hopen hrb'
    have hcb : ¬(BUILTINS.contains c' = true) := by simpa using hc'nb
    simp only [List.cons_append, runStages, stdoutFor, hdec, if_true]
    rw [if_neg hcb, if_pos hc'sp]
    refine ⟨ihc, List.mem_cons_of_mem _ iho, ?_, ?_⟩
    · intro s hs
      exact List.mem_cons_of_mem _ (ihp s hs)
    · intro c'' a si so se hmem
      rcases List.mem_cons.mp hmem with heq | hin
      · injection heq with e1 e2 e3 e4 e5
        refine ⟨?_, e4⟩
        rw [e1]
        exact List.mem_cons_self _ _
      · obtain ⟨hf, hp⟩ := ihs c'' a si so se hin
        exact ⟨List.mem_cons_of_mem _ hf, hp⟩

/-- Every spawned child's stderr binding is `Stdio::inherit`: the stage loop
never pipes stderr between stages and never directs a redirection at it. -/
theorem runStages_spawn_stderr (ee : ExecEnv) (n : Nat)
    (redir : Option (String × String)) (args : List (List String)) :
    ∀ (cs : List String) (i : Nat) (prev : Bool) (senv : ShellEnv)
      (c : String) (a : List String) (si : StdinSrc) (so se : StdoutSink),
      Event.spawn c a si so se ∈
        (runStages ee n redir args i cs prev senv).events →
      se = StdoutSink.inherit := by
  intro cs
  induction cs with
  | nil => intro i prev senv c a si so se h; simp [runStages] at h
  | cons cmd rest ih =>
    intro i prev senv c a si so se
    simp only [runStages]
    cases hso : stdoutFor ee.openOk (decide (i < n - 1)) redir with
    | error ev =>
      obtain ⟨g, rfl⟩ := stdoutFor_error_shape hso
      intro h
      simp at h
    | ok p =>
      obtain ⟨evs, sink⟩ := p
      have hevs := stdoutFor_ok_shape hso
      by_cases hb : cmd ∈ BUILTINS
      · cases hrb : run_builtin senv cmd ((args.get? i).getD []) with
        | exit code =>
          intro h
          rcases hevs with rfl | ⟨g, m, rfl⟩ <;> simp [hb, hrb] at h
        | out out newCwd =>
          intro h
          have hmem : Event.spawn c a si so se ∈
              (runStages ee n redir args (i + 1) rest false
                { senv with cwd := newCwd }).events := by
            rcases hevs with rfl | ⟨g, m, rfl⟩ <;> cases out <;>
              simp [hb, hrb] at h <;> simpa using h
          exact ih _ _ _ _ _ _ _ _ hmem
      · by_cases hs : ee.spawnOk cmd = true
        · intro h
          rcases hevs with rfl | ⟨g, m, rfl⟩
          · simp [hb, hs] at h
            rcases h with ⟨_, _, _, _, h5⟩ | hmem
            · exact h5
            · exact ih _ _ _ _ _ _ _ _ hmem
          · simp [hb, hs] at h
            rcases h with ⟨_, _, _, _, h5⟩ | hmem
            · exact h5
            · exact ih _ _ _ _ _ _ _ _ hmem
        · intro h
          rcases hevs with rfl | ⟨g, m, rfl⟩ <;> simp [hb, hs] at h

/-- Running a pipeline of external spawnable stages followed by an external
spawnable final stage carrying a redirection: the target is opened with the
mode's open logic and the final child is spawned with that file as its
**stdout** binding and `Stdio::inherit` as its stderr binding. -/
theorem runStages_front_external (ee : ExecEnv) (mode f : String)
    (args : List (List String)) (cmd : String) :
    ∀ (front : List String) (n i : Nat) (prev : Bool) (senv : ShellEnv),
      n = i + front.length + 1 →
      (∀ c ∈ front, c ∉ BUILTINS ∧ ee.spawnOk c = true) →
      cmd ∉ BUILTINS →
      ee.spawnOk cmd = true →
      ee.openOk f = true →
      Event.openFile f (openFor mode) ∈
        (runStages ee n (some (mode, f)) args i (front ++ [cmd]) prev
          senv).events ∧
      ∃ si, Event.spawn cmd ((args.get? (i + front.length)).getD []) si
          (StdoutSink.file f (openFor mode)) StdoutSink.inherit ∈
        (runStages ee n (some (mode, f)) args i (front ++ [cmd]) prev
          senv).events := by
  intro front
  induction front with
  | nil =>
    intro n i prev senv hn hfront hnb hsp hopen
    subst hn
    have hlt : ¬ (i < i + List.length ([] : List String) + 1 - 1) := by
      simp
    simp [runStages, stdoutFor, decide_eq_false hlt, hopen, hnb, hsp]
  | cons c' front' ih =>
    intro n i prev senv hn hfront hnb hsp hopen
    obtain ⟨hc'nb, hc'sp⟩ := hfront c' (List.mem_cons_self _ _)
    have hfront' : ∀ c ∈ front', c ∉ BUILTINS ∧ ee.spawnOk c = true :=
      fun c hc => hfront c (List.mem_cons_of_mem _ hc)
    have hn' : n = (i + 1) + front'.length + 1 := by
      rw [hn, List.length_cons]; omega
    have hlt : i < n - 1 := by rw [hn, List.length_cons]; omega
    have hdec : decide (i < n - 1) = true := decide_eq_true hlt
    have hcb : ¬(BUILTINS.contains c' = true) := by simpa using hc'nb
    obtain ⟨iho, si, ihsp⟩ := ih n (i + 1) true senv hn' hfront' hnb hsp hopen
    have harith : (i + 1) + front'.length = i + (c' :: front').length := by
      rw [List.length_cons]; omega
    simp only [List.cons_append, runStages, stdoutFor, hdec, if_true]
    rw [if_neg hcb, if_pos hc'sp]
    refine ⟨List.mem_cons_of_mem _ iho, si, ?_⟩
    rw [← harith]
    exact List.mem_cons_of_mem _ ihsp

/-- An event of the stage loop is also an event of the full executor trace,
whether or not the wait loop runs afterwards. -/
theorem trace_of_runStages_event (R : RunResult) (x : Event)
    (hx : x ∈ R.events) :
    x ∈ (if R.completed then R.events ++ R.spawned.map Event.waited
         else R.events) := by
  cases hc : R.completed with
  | true =>
    simp
    exact Or.inl hx
  | false => simpa using hx

/-! ## Claim theorems -/

/-- C1, counterexample: in `a > f | b` the last group `[b]` contains no
redirection operator, yet the parsed pipeline carries the redirection
`> f` found in the earlier group — the claim that an earlier group's
redirection is discarded (and that the pipeline carries none when the last
group has none) is false. -/
theorem c1_counterexample :
    (parse_arguments (some ["a", ">", "f", "|", "b"])).2.2.1 = some (">", "f") ∧
    (splitGroups ["a", ">", "f", "|", "b"]).getLast? = some ["b"] ∧
    groupRedir ["b"] = none := by
  refine ⟨rfl, rfl, rfl⟩

/-- C1, amended: the redirection retained on the pipeline is the **last**
redirection set while scanning the groups left to right (each group scanned
up to its first operator-with-target); a redirection found in an earlier
group is therefore kept — and applied to the final stage — whenever no later
group sets one. -/
theorem c1_retained_redirection_is_last_set (ws : List String) :
    (parse_arguments (some ws)).2.2.1 = lastRetainedRedir (splitGroups ws) := by
  have h := processGroups_redir (splitGroups ws) none
  simp only [parse_arguments, Option.getD_some]
  rw [h]
  cases lastRetainedRedir (splitGroups ws) <;> rfl

/-- C7, counterexample: in `| a b` the leading empty group pushes an empty
argument list without a command, so the single stage pairs command `a`
(head of the non-empty group `[a, b]`) with the empty group's argument list
`[]` instead of its own group's arguments `[b]` — empty groups do affect
other stages. -/
theorem c7_counterexample :
    stages (some ["|", "a", "b"]) = [("a", [])] ∧
    splitGroups ["|", "a", "b"] = [[], ["a", "b"]] ∧
    (scanArgs ["b"]).1 = ["b"] := by
  refine ⟨rfl, rfl, rfl⟩

/-- C7, amended: parsing always yields one command per non-empty group, in
left-to-right order, each being the first word of its group; but an argument
list is pushed for **every** group (also empty ones) and the executor pairs
commands with argument lists by position, so the claimed stage shape — each
stage's arguments drawn from its own group — holds exactly when no group is
empty; a leading or doubled `|` shifts later stages' argument lists. -/
theorem c7_stage_structure (ws : List String) :
    (parse_arguments (some ws)).1 = (splitGroups ws).filterMap List.head? ∧
    ((∀ g ∈ splitGroups ws, g ≠ []) →
      stages (some ws) =
        (splitGroups ws).map (fun g => (g.headD "", (scanArgs g.tail).1))) := by
  constructor
  · simp only [parse_arguments, Option.getD_some]
    exact processGroups_cmds (splitGroups ws) none
  · intro hne
    simp only [stages, parse_arguments, Option.getD_some]
    exact processGroups_zip (splitGroups ws) none hne

/-- C7, witness for the amended theorem at `echo a | wc -l`. -/
theorem c7_witness :
    (parse_arguments (some ["echo", "a", "|", "wc", "-l"])).1 =
      (splitGroups ["echo", "a", "|", "wc", "-l"]).filterMap List.head? ∧
    ((∀ g ∈ splitGroups ["echo", "a", "|", "wc", "-l"], g ≠ []) ∧
      stages (some ["echo", "a", "|", "wc", "-l"]) =
        (splitGroups ["echo", "a", "|", "wc", "-l"]).map
          (fun g => (g.headD "", (scanArgs g.tail).1))) :=
  ⟨(c7_stage_structure ["echo", "a", "|", "wc", "-l"]).1,
   by decide,
   (c7_stage_structure ["echo", "a", "|", "wc", "-l"]).2 (by decide)⟩

/-- C3, counterexample: `cd` with no arguments returns `None` without
touching the working directory — it stays `/a` and is not set to the home
directory `/home/u`. -/
theorem c3_counterexample :
    run_builtin senv0 "cd" [] = .out none "/a" ∧
    senv0.home = "/home/u" ∧ senv0.cwd = "/a" ∧ ("/a" : String) ≠ "/home/u" := by
  refine ⟨rfl, rfl, rfl, by decide⟩

/-- C3, amended: `cd` with no arguments is a no-op (the working directory is
left unchanged and nothing is printed — it is **not** set to the home
directory); `cd` to a path that, after tilde expansion, does not exist leaves
the working directory unchanged and returns a message containing the
requested path. -/
theorem c3_cd_behavior (env : ShellEnv) (dir : String)
    (h : env.dirExists (tildeExpand env.home dir) = false) :
    run_builtin env "cd" [dir] =
      .out (some ("cd: " ++ dir ++ ": No such file or directory\n")) env.cwd ∧
    run_builtin env "cd" [] = .out none env.cwd := by
  constructor
  · simp only [run_builtin, List.head?, h]
    rfl
  · rfl

/-- C3, witness: applying the amended theorem at a concrete state and path. -/
theorem c3_witness :
    senvF.dirExists (tildeExpand senvF.home "/nope") = false ∧
    (run_builtin senvF "cd" ["/nope"] =
      .out (some ("cd: " ++ "/nope" ++ ": No such file or directory\n")) senvF.cwd ∧
     run_builtin senvF "cd" [] = .out none senvF.cwd) :=
  ⟨rfl, c3_cd_behavior senvF "/nope" rfl⟩

/-- C5, counterexample: the recognized append operator `1>>` is opened with
write+create+truncate (only the literal `">>"` selects the append branch),
so an existing file **is** truncated — the claim that every append mode
appends without truncating is false. -/
theorem c5_counterexample :
    openFor "1>>" = ⟨false, true, true, true⟩ ∧
    (openFor "1>>").truncate = true ∧ (openFor "1>>").append = false ∧
    "1>>" ∈ redir_modes := by
  refine ⟨rfl, rfl, rfl, by decide⟩

/-- C5, amended: only the operator `">>"` opens the target in append mode
without truncating; every other operator — including the append-spelled
`1>>` and `2>>` — opens with write+create+truncate; in all cases the file is
created if absent. -/
theorem c5_open_modes :
    openFor ">>" = ⟨true, false, true, false⟩ ∧
    (∀ m, m ≠ ">>" → openFor m = ⟨false, true, true, true⟩) ∧
    (∀ m, (openFor m).create = true) := by
  refine ⟨rfl, fun m hm => ?_, fun m => ?_⟩
  · simp [openFor, hm]
  · simp only [openFor]
    split <;> rfl

/-- C5, witness: the amended theorem applied at the operator `1>>`. -/
theorem c5_witness :
    ("1>>" : String) ≠ ">>" ∧ openFor "1>>" = ⟨false, true, true, true⟩ :=
  ⟨by decide, c5_open_modes.2.1 "1>>" (by decide)⟩

/-- C8, counterexample: invoking the builtin `history` produces an empty
event trace — nothing is listed (the listing code is commented out in the
source and `run_builtin` falls through to its catch-all). -/
theorem c8_counterexample :
    (parse_command ee2 senv0 (some ["history"])).1 = [] ∧
    run_builtin senv0 "history" [] = .out none "/a" := by
  refine ⟨rfl, rfl⟩

/-- C8, amended: `history` is in the builtin set and is dispatched as a
builtin, but `run_builtin` has no arm for it and returns no output, so
invoking `history` prints nothing at all (no indexed listing). -/
theorem c8_history_no_output (env : ShellEnv) (args : List String) :
    run_builtin env "history" args = .out none env.cwd ∧
    "history" ∈ BUILTINS := by
  refine ⟨rfl, by decide⟩

/-- C9, confirmed: when word splitting fails (`shlex::split` returns `None`,
e.g. on an unterminated quote), `unwrap_or_default` yields no words, parsing
yields zero stages, and execution is a silent no-op: no events (no
diagnostic, no spawn, no wait) and the shell state is returned unchanged. -/
theorem c9_split_failure_noop (ee : ExecEnv) (senv : ShellEnv) :
    stages none = [] ∧
    (parse_arguments none).1 = [] ∧
    parse_command ee senv none = ([], senv) := by
  refine ⟨rfl, rfl, rfl⟩

/-- C2, counterexample: in `cat | nosuchx` (where only `cat` can be
spawned), `cat` is spawned, the failing stage reports "not found", and the
executor returns with **no** wait event — the already-spawned `cat` is never
waited on, refuting the claim that every spawned stage is still waited on. -/
theorem c2_counterexample :
    (parse_command ee2 senv0 (some ["cat", "|", "nosuchx"])).1 =
      [Event.spawn "cat" [] StdinSrc.inherit StdoutSink.piped StdoutSink.inherit,
       Event.notFound "nosuchx"] ∧
    Event.waited "cat" ∉ (parse_command ee2 senv0 (some ["cat", "|", "nosuchx"])).1 := by
  refine ⟨rfl, by decide⟩

/-- C2, amended: when a stage's spawn fails, the executor reports
"<command>: command not found" and returns immediately: the diagnostic is
the final event (no remaining stage is launched) and no stage — including
the already-spawned ones — is ever waited on (the wait loop is skipped). -/
theorem c2_spawn_failure_aborts_without_wait (ee : ExecEnv) (senv : ShellEnv)
    (split : Option (List String)) (c : String)
    (h : Event.notFound c ∈ (parse_command ee senv split).1) :
    (parse_command ee senv split).1.getLast? = some (Event.notFound c) ∧
    ∀ d, Event.waited d ∉ (parse_command ee senv split).1 := by
  have key : ∀ (R : RunResult),
      (∀ d, Event.waited d ∉ R.events) →
      (Event.notFound c ∈ R.events →
        R.events.getLast? = some (Event.notFound c) ∧ R.completed = false) →
      Event.notFound c ∈
        (if R.completed then R.events ++ R.spawned.map Event.waited
         else R.events) →
      ((if R.completed then R.events ++ R.spawned.map Event.waited
        else R.events).getLast? = some (Event.notFound c) ∧
       ∀ d, Event.waited d ∉
         (if R.completed then R.events ++ R.spawned.map Event.waited
          else R.events)) := by
    intro R hW hNF hmem
    cases hc : R.completed with
    | true =>
      rw [hc] at hmem
      simp at hmem
      exact absurd (hNF hmem).2 (by simp [hc])
    | false =>
      rw [hc] at hmem
      simp only [Bool.false_eq_true, if_false] at hmem ⊢
      exact ⟨(hNF hmem).1, hW⟩
  exact key
    (runStages ee (parse_arguments split).1.length (parse_arguments split).2.2.1
      (parse_arguments split).2.1 0 (parse_arguments split).1 false senv)
    (fun d => runStages_no_waited ee _ _ _ _ 0 false senv d)
    (runStages_notFound_last ee _ _ _ _ 0 false senv c) h

/-- C2, witness: the amended theorem applied to `cat | nosuchx`. -/
theorem c2_witness :
    Event.notFound "nosuchx" ∈
      (parse_command ee2 senv0 (some ["cat", "|", "nosuchx"])).1 ∧
    ((parse_command ee2 senv0 (some ["cat", "|", "nosuchx"])).1.getLast? =
        some (Event.notFound "nosuchx") ∧
      ∀ d, Event.waited d ∉
        (parse_command ee2 senv0 (some ["cat", "|", "nosuchx"])).1) :=
  ⟨by decide,
   c2_spawn_failure_aborts_without_wait ee2 senv0
     (some ["cat", "|", "nosuchx"]) "nosuchx" (by decide)⟩

/-- C6, counterexample: in `cat | cat > f` with the open of `f` failing,
the first `cat` has already been spawned when the open diagnostic is
emitted — refuting the claim that an open failure aborts the pipeline
before any stage has been spawned. -/
theorem c6_counterexample :
    (parse_command ee6 senv0 (some ["cat", "|", "cat", ">", "f"])).1 =
      [Event.spawn "cat" [] StdinSrc.inherit StdoutSink.piped StdoutSink.inherit,
       Event.openDiag "f"] := rfl

/-- C6, amended: a redirection open failure prints a diagnostic and aborts
the pipeline at the final stage: the diagnostic is the last event (the final
stage and nothing after it is launched) and no stage is waited on — but
stages spawned before the final stage have already been launched, so in a
multi-stage pipeline the abort does not precede every spawn. -/
theorem c6_open_failure_aborts (ee : ExecEnv) (senv : ShellEnv)
    (split : Option (List String)) (f : String)
    (h : Event.openDiag f ∈ (parse_command ee senv split).1) :
    (parse_command ee senv split).1.getLast? = some (Event.openDiag f) ∧
    ∀ d, Event.waited d ∉ (parse_command ee senv split).1 := by
  have key : ∀ (R : RunResult),
      (∀ d, Event.waited d ∉ R.events) →
      (Event.openDiag f ∈ R.events →
        R.events.getLast? = some (Event.openDiag f) ∧ R.completed = false) →
      Event.openDiag f ∈
        (if R.completed then R.events ++ R.spawned.map Event.waited
         else R.events) →
      ((if R.completed then R.events ++ R.spawned.map Event.waited
        else R.events).getLast? = some (Event.openDiag f) ∧
       ∀ d, Event.waited d ∉
         (if R.completed then R.events ++ R.spawned.map Event.waited
          else R.events)) := by
    intro R hW hD hmem
    cases hc : R.completed with
    | true =>
      rw [hc] at hmem
      simp at hmem
      exact absurd (hD hmem).2 (by simp [hc])
    | false =>
      rw [hc] at hmem
      simp only [Bool.false_eq_true, if_false] at hmem ⊢
      exact ⟨(hD hmem).1, hW⟩
  exact key
    (runStages ee (parse_arguments split).1.length (parse_arguments split).2.2.1
      (parse_arguments split).2.1 0 (parse_arguments split).1 false senv)
    (fun d => runStages_no_waited ee _ _ _ _ 0 false senv d)
    (runStages_openDiag_last ee _ _ _ _ 0 false senv f) h

/-- C6, witness: the amended theorem applied to `cat | cat > f` with the
open failing. -/
theorem c6_witness :
    Event.openDiag "f" ∈
      (parse_command ee6 senv0 (some ["cat", "|", "cat", ">", "f"])).1 ∧
    ((parse_command ee6 senv0 (some ["cat", "|", "cat", ">", "f"])).1.getLast? =
        some (Event.openDiag "f") ∧
      ∀ d, Event.waited d ∉
        (parse_command ee6 senv0 (some ["cat", "|", "cat", ">", "f"])).1) :=
  ⟨by decide,
   c6_open_failure_aborts ee6 senv0
     (some ["cat", "|", "cat", ">", "f"]) "f" (by decide)⟩

/-- C4, counterexample: for `cat 2> f` the opened file is bound to the
spawned child's **stdout** and its stderr is inherited from the shell — the
claim that the file is bound to the child's stderr while stdout keeps its
default sink is false. -/
theorem c4_counterexample :
    (parse_command ee2 senv0 (some ["cat", "2>", "f"])).1 =
      [Event.openFile "f" ⟨false, true, true, true⟩,
       Event.spawn "cat" [] StdinSrc.inherit
         (StdoutSink.file "f" ⟨false, true, true, true⟩) StdoutSink.inherit,
       Event.waited "cat"] := rfl

/-- C4, amended: in **every** pipeline, every spawned child's stderr binding
is `Stdio::inherit` — stderr is never piped between stages and never
receives the redirection; and for every pipeline whose external final stage
is reached (earlier stages external and spawnable, the final command
spawnable, the open succeeding) and carries a redirection under any
operator, including the stderr-spelled `2>` and `2>>`, the target is opened
with that mode's open logic and bound to the final child's **stdout**
stream, displacing its default sink. -/
theorem c4_stderr_mode_binds_stdout (ee : ExecEnv) (senv : ShellEnv)
    (split : Option (List String)) (front : List String) (cmd mode f : String)
    (h1 : (parse_arguments split).1 = front ++ [cmd])
    (h2 : (parse_arguments split).2.2.1 = some (mode, f))
    (h3 : ∀ c ∈ front, c ∉ BUILTINS ∧ ee.spawnOk c = true)
    (h4 : cmd ∉ BUILTINS)
    (h5 : ee.spawnOk cmd = true)
    (h6 : ee.openOk f = true) :
    (∀ (ee' : ExecEnv) (senv' : ShellEnv) (split' : Option (List String))
        (c : String) (a : List String) (si : StdinSrc) (so se : StdoutSink),
      Event.spawn c a si so se ∈ (parse_command ee' senv' split').1 →
      se = StdoutSink.inherit) ∧
    Event.openFile f (openFor mode) ∈ (parse_command ee senv split).1 ∧
    ∃ si, Event.spawn cmd
        (((parse_arguments split).2.1.get? front.length).getD []) si
        (StdoutSink.file f (openFor mode)) StdoutSink.inherit ∈
      (parse_command ee senv split).1 := by
  refine ⟨?_, ?_, ?_⟩
  · intro ee' senv' split' c a si so se hmem
    have hev : Event.spawn c a si so se ∈
        (runStages ee' (parse_arguments split').1.length
          (parse_arguments split').2.2.1 (parse_arguments split').2.1 0
          (parse_arguments split').1 false senv').events := by
      have key : ∀ (R : RunResult),
          Event.spawn c a si so se ∈
            (if R.completed then R.events ++ R.spawned.map Event.waited
             else R.events) →
          Event.spawn c a si so se ∈ R.events := by
        intro R hR
        cases hc : R.completed with
        | true =>
          rw [hc] at hR
          simpa using hR
        | false =>
          rw [hc] at hR
          simpa using hR
      exact key _ hmem
    exact runStages_spawn_stderr ee' _ _ _ _ 0 false senv' c a si so se hev
  · have hn : (front ++ [cmd]).length = 0 + front.length + 1 := by simp
    obtain ⟨ho, si, hsp⟩ :=
      runStages_front_external ee mode f (parse_arguments split).2.1 cmd
        front (front ++ [cmd]).length 0 false senv hn h3 h4 h5 h6
    simp only [parse_command]
    rw [h1, h2]
    exact trace_of_runStages_event _ _ ho
  · have hn : (front ++ [cmd]).length = 0 + front.length + 1 := by simp
    obtain ⟨ho, si, hsp⟩ :=
      runStages_front_external ee mode f (parse_arguments split).2.1 cmd
        front (front ++ [cmd]).length 0 false senv hn h3 h4 h5 h6
    simp only [Nat.zero_add] at hsp
    simp only [parse_command]
    rw [h1, h2]
    exact ⟨si, trace_of_runStages_event _ _ hsp⟩

/-- C4, witness: the amended theorem applied to the two-stage pipeline
`cat | cat 2> g`. -/
theorem c4_witness :
    (parse_arguments (some ["cat", "|", "cat", "2>", "g"])).1 =
      ["cat"] ++ ["cat"] ∧
    (parse_arguments (some ["cat", "|", "cat", "2>", "g"])).2.2.1 =
      some ("2>", "g") ∧
    (∀ c ∈ ["cat"], c ∉ BUILTINS ∧ ee2.spawnOk c = true) ∧
    "cat" ∉ BUILTINS ∧
    ee2.spawnOk "cat" = true ∧
    ee2.openOk "g" = true ∧
    ((∀ (ee' : ExecEnv) (senv' : ShellEnv) (split' : Option (List String))
        (c : String) (a : List String) (si : StdinSrc) (so se : StdoutSink),
      Event.spawn c a si so se ∈ (parse_command ee' senv' split').1 →
      se = StdoutSink.inherit) ∧
     Event.openFile "g" (openFor "2>") ∈
       (parse_command ee2 senv0 (some ["cat", "|", "cat", "2>", "g"])).1 ∧
     ∃ si, Event.spawn "cat"
         (((parse_arguments (some ["cat", "|", "cat", "2>", "g"])).2.1.get?
           (["cat"] : List String).length).getD []) si
         (StdoutSink.file "g" (openFor "2>")) StdoutSink.inherit ∈
       (parse_command ee2 senv0 (some ["cat", "|", "cat", "2>", "g"])).1) :=
  ⟨rfl, rfl, by decide, by decide, rfl, rfl,
   c4_stderr_mode_binds_stdout ee2 senv0 (some ["cat", "|", "cat", "2>", "g"])
     ["cat"] "cat" "2>" "g" rfl rfl (by decide) (by decide) rfl rfl⟩

/-- C10, confirmed: for any pipeline whose final stage is a builtin (all
earlier stages external and spawnable) carrying a redirection, the target
file is still opened according to the redirection mode (always with
`create`; with `truncate` for every overwrite mode) as a side effect, the
builtin's output is printed to the shell's own stdout (`Event.print`), and
the file is never written to by the builtin: every spawned child is one of
the earlier stages and has a pipe — never the opened file — as its stdout,
and the builtin stage itself is never spawned. -/
theorem c10_builtin_redirection_side_effect (ee : ExecEnv) (senv : ShellEnv)
    (split : Option (List String)) (front : List String) (cmd mode f : String)
    (out : Option String) (newCwd : String)
    (h1 : (parse_arguments split).1 = front ++ [cmd])
    (h2 : (parse_arguments split).2.2.1 = some (mode, f))
    (h3 : cmd ∈ BUILTINS)
    (h4 : ee.openOk f = true)
    (h5 : ∀ c ∈ front, c ∉ BUILTINS ∧ ee.spawnOk c = true)
    (h6 : run_builtin senv cmd
      (((parse_arguments split).2.1.get? front.length).getD []) =
      .out out newCwd) :
    Event.openFile f (openFor mode) ∈ (parse_command ee senv split).1 ∧
    (∀ s, out = some s → Event.print s ∈ (parse_command ee senv split).1) ∧
    (∀ c' a si so se,
      Event.spawn c' a si so se ∈ (parse_command ee senv split).1 →
      c' ∈ front ∧ so = StdoutSink.piped) ∧
    (openFor mode).create = true ∧
    ((mode = ">" ∨ mode = "1>" ∨ mode = "2>") →
      (openFor mode).truncate = true) := by
  have hn : (front ++ [cmd]).length = 0 + front.length + 1 := by simp
  obtain ⟨hc, ho, hp, hs⟩ :=
    runStages_front_builtin ee mode f (parse_arguments split).2.1 cmd out
      newCwd front (front ++ [cmd]).length 0 false senv hn h5 h3 h4
      (by simpa using h6)
  simp only [parse_command]
  rw [h1, h2, if_pos hc]
  refine ⟨List.mem_append_left _ ho, ?_, ?_, ?_, ?_⟩
  · intro s hs'
    exact List.mem_append_left _ (hp s hs')
  · intro c' a si so se hmem
    rcases List.mem_append.mp hmem with hin | hin
    · exact hs c' a si so se hin
    · obtain ⟨d, _, heq⟩ := List.mem_map.mp hin
      exact Event.noConfusion heq
  · simp only [openFor]
    split <;> rfl
  · rintro (rfl | rfl | rfl) <;> rfl

/-- C10, witness: the theorem applied to `cat | echo hi > out.txt` — a
two-stage pipeline whose final stage is the builtin `echo`. -/
theorem c10_witness :
    (parse_arguments (some ["cat", "|", "echo", "hi", ">", "out.txt"])).1 =
      ["cat"] ++ ["echo"] ∧
    (parse_arguments (some ["cat", "|", "echo", "hi", ">", "out.txt"])).2.2.1 =
      some (">", "out.txt") ∧
    "echo" ∈ BUILTINS ∧
    ee2.openOk "out.txt" = true ∧
    (∀ c ∈ ["cat"], c ∉ BUILTINS ∧ ee2.spawnOk c = true) ∧
    run_builtin senv0 "echo"
      (((parse_arguments
          (some ["cat", "|", "echo", "hi", ">", "out.txt"])).2.1.get?
        (["cat"] : List String).length).getD []) =
      .out (some "hi\n") "/a" ∧
    (Event.openFile "out.txt" (openFor ">") ∈
      (parse_command ee2 senv0
        (some ["cat", "|", "echo", "hi", ">", "out.txt"])).1 ∧
     (∀ s, (some "hi\n" : Option String) = some s → Event.print s ∈
       (parse_command ee2 senv0
         (some ["cat", "|", "echo", "hi", ">", "out.txt"])).1) ∧
     (∀ c' a si so se,
       Event.spawn c' a si so se ∈
         (parse_command ee2 senv0
           (some ["cat", "|", "echo", "hi", ">", "out.txt"])).1 →
       c' ∈ ["cat"] ∧ so = StdoutSink.piped) ∧
     (openFor ">").create = true ∧
     ((">" = ">" ∨ (">" : String) = "1>" ∨ (">" : String) = "2>") →
       (openFor ">").truncate = true)) :=
  ⟨rfl, rfl, by decide, rfl, by decide, rfl,
   c10_builtin_redirection_side_effect ee2 senv0
     (some ["cat", "|", "echo", "hi", ">", "out.txt"]) ["cat"] "echo" ">"
     "out.txt" (some "hi\n") "/a" rfl rfl (by decide) rfl (by decide) rfl⟩

end Shell
